import Mathlib

/-!
# sphericart-jax CPU custom calls: buffer-layout contract

A shallow embedding of `sphericart-jax/src/jax.cpp`: the three templated XLA
custom-call kernels `cpu_sph`, `cpu_sph_with_gradients`,
`cpu_sph_with_hessians` and the `Registrations` table.

* `size_t` is arithmetic modulo `2 ^ 64`; the `int` to `size_t` conversion is
  reduction modulo `2 ^ 64`.
* Raw memory is a map from pointers to objects; a kernel is a step on a
  `World` (memory plus the trace of calls made on the external calculator)
  that fails (`none`) when it dereferences something that is not there.
* The external `sphericart::SphericalHarmonics<T>` class and the
  `EncapsulateFunction` helper are not part of this file's source; they are
  taken as parameters.
-/

namespace Sphericart

/-! ## Machine arithmetic -/

/-- Addition of two `size_t` values (64-bit unsigned, wraps around). -/
def size_t_add (a b : Nat) : Nat := (a + b) % 2 ^ 64

/-- Multiplication of two `size_t` values (64-bit unsigned, wraps around). -/
def size_t_mul (a b : Nat) : Nat := (a * b) % 2 ^ 64

/-- Implicit conversion of an `int` to `size_t`: the value modulo `2 ^ 64`. -/
def int_to_size_t (v : Int) : Nat := (v % (2 ^ 64 : Int)).toNat

/-! ## Memory -/

/-- The two instantiations of the template parameter `T`: `float`, `double`. -/
inductive Precision
  | f32
  | f64
  deriving DecidableEq, Repr

/-- Untyped pointer (`void *`). -/
abbrev Ptr := Nat

/-- What a pointer can point to: an `int`, a `bool`, a contiguous array of
scalars of precision `T`, or a contiguous list of pointers. -/
inductive Obj (ε : Type)
  | int (v : Int)
  | bool (b : Bool)
  | array (T : Precision) (xs : List ε)
  | ptrs (ps : List Ptr)

/-- Raw memory. -/
abbrev Mem (ε : Type) := Ptr → Option (Obj ε)

/-- Store an object at a pointer. -/
def Mem.write {ε : Type} (m : Mem ε) (p : Ptr) (o : Obj ε) : Mem ε :=
  fun q => if q = p then some o else m q

/-- Read `table[i]` where `table` points to a list of pointers. -/
def read_ptr {ε : Type} (m : Mem ε) (table : Ptr) (i : Nat) : Option Ptr :=
  match m table with
  | some (Obj.ptrs ps) => ps[i]?
  | _ => none

/-- Read `*reinterpret_cast<const int *>(p)`. -/
def read_int {ε : Type} (m : Mem ε) (p : Ptr) : Option Int :=
  match m p with
  | some (Obj.int v) => some v
  | _ => none

/-- Read `*reinterpret_cast<const bool *>(p)`. -/
def read_bool {ε : Type} (m : Mem ε) (p : Ptr) : Option Bool :=
  match m p with
  | some (Obj.bool b) => some b
  | _ => none

/-- Read the array of `T` that `p` points to. -/
def read_array {ε : Type} (m : Mem ε) (T : Precision) (p : Ptr) : Option (List ε) :=
  match m p with
  | some (Obj.array T0 xs) => if T0 = T then some xs else none
  | _ => none

/-! ## The external calculator -/

/-- A calculator object `sphericart::SphericalHarmonics<T>(l_max, normalized)`. -/
structure SphericalHarmonics where
  T : Precision
  l_max : Nat
  normalized : Bool
  deriving DecidableEq, Repr

/-- Behaviour of the three computation methods of the external class, as
functions of the calculator, the coordinate array and the lengths passed; each
returns the new contents of the output arrays. -/
structure Library (ε : Type) where
  compute_array : SphericalHarmonics → List ε → Nat → Nat → List ε
  compute_array_with_gradients :
    SphericalHarmonics → List ε → Nat → Nat → Nat → List ε × List ε
  compute_array_with_hessians :
    SphericalHarmonics → List ε → Nat → Nat → Nat → Nat → List ε × List ε × List ε

/-- Calls made on the external class, with the arguments passed. -/
inductive Event
  | construct (calculator : SphericalHarmonics)
  | compute_array (calculator : SphericalHarmonics)
      (xyz : Ptr) (xyz_length : Nat) (sph : Ptr) (sph_len : Nat)
  | compute_array_with_gradients (calculator : SphericalHarmonics)
      (xyz : Ptr) (xyz_length : Nat) (sph : Ptr) (sph_len : Nat)
      (dsph : Ptr) (dsph_len : Nat)
  | compute_array_with_hessians (calculator : SphericalHarmonics)
      (xyz : Ptr) (xyz_length : Nat) (sph : Ptr) (sph_len : Nat)
      (dsph : Ptr) (dsph_len : Nat) (ddsph : Ptr) (ddsph_len : Nat)
  deriving DecidableEq, Repr

/-- Memory together with the trace of calculator calls made so far. -/
structure World (ε : Type) where
  mem : Mem ε
  trace : List Event

/-- Record a call. -/
def World.log {ε : Type} (w : World ε) (e : Event) : World ε :=
  { mem := w.mem, trace := w.trace ++ [e] }

/-- Overwrite an output array. -/
def World.store {ε : Type} (w : World ε) (p : Ptr) (T : Precision) (xs : List ε) : World ε :=
  { mem := w.mem.write p (Obj.array T xs), trace := w.trace }

/-- The call `calculator.compute_array(xyz, xyz_length, sph, sph_len)`. -/
def call_compute_array {ε : Type} (lib : Library ε) (calculator : SphericalHarmonics)
    (xyz : Ptr) (xyz_length : Nat) (sph : Ptr) (sph_len : Nat) (w : World ε) :
    Option (World ε) := do
  let coords ← read_array w.mem calculator.T xyz
  let w := w.log (Event.compute_array calculator xyz xyz_length sph sph_len)
  let r := lib.compute_array calculator coords xyz_length sph_len
  some (w.store sph calculator.T r)

/-- The call `calculator.compute_array_with_gradients(xyz, xyz_length, sph,
sph_len, dsph, dsph_len)`. -/
def call_compute_array_with_gradients {ε : Type} (lib : Library ε)
    (calculator : SphericalHarmonics) (xyz : Ptr) (xyz_length : Nat) (sph : Ptr) (sph_len : Nat)
    (dsph : Ptr) (dsph_len : Nat) (w : World ε) : Option (World ε) := do
  let coords ← read_array w.mem calculator.T xyz
  let w := w.log
    (Event.compute_array_with_gradients calculator xyz xyz_length sph sph_len dsph dsph_len)
  let r := lib.compute_array_with_gradients calculator coords xyz_length sph_len dsph_len
  some ((w.store sph calculator.T r.1).store dsph calculator.T r.2)

/-- The call `calculator.compute_array_with_hessians(xyz, xyz_length, sph,
sph_len, dsph, dsph_len, ddsph, ddsph_len)`. -/
def call_compute_array_with_hessians {ε : Type} (lib : Library ε)
    (calculator : SphericalHarmonics) (xyz : Ptr) (xyz_length : Nat) (sph : Ptr) (sph_len : Nat)
    (dsph : Ptr) (dsph_len : Nat) (ddsph : Ptr) (ddsph_len : Nat) (w : World ε) :
    Option (World ε) := do
  let coords ← read_array w.mem calculator.T xyz
  let w := w.log
    (Event.compute_array_with_hessians calculator xyz xyz_length sph sph_len dsph dsph_len
      ddsph ddsph_len)
  let r := lib.compute_array_with_hessians calculator coords xyz_length sph_len dsph_len
    ddsph_len
  some (((w.store sph calculator.T r.1).store dsph calculator.T r.2.1).store ddsph
    calculator.T r.2.2)

/-! ## The kernels -/

/-- `template <typename T> void cpu_sph(void *out, const void **in)`. -/
def cpu_sph {ε : Type} (lib : Library ε) (T : Precision) (out : Ptr) (inp : Ptr)
    (w : World ε) : Option (World ε) := do
  -- Parse the inputs
  let xyz ← read_ptr w.mem inp 0
  let l_max := int_to_size_t (← read_int w.mem (← read_ptr w.mem inp 1))
  let normalized ← read_bool w.mem (← read_ptr w.mem inp 2)
  let n_samples := int_to_size_t (← read_int w.mem (← read_ptr w.mem inp 3))
  let xyz_length := size_t_mul n_samples 3
  let sph_len := size_t_mul (size_t_mul (size_t_add l_max 1) (size_t_add l_max 1)) n_samples
  -- The output is stored as a single pointer since there is only one output
  let sph := out
  let calculator : SphericalHarmonics := { T := T, l_max := l_max, normalized := normalized }
  let w := w.log (Event.construct calculator)
  call_compute_array lib calculator xyz xyz_length sph sph_len w

/-- `template <typename T> void cpu_sph_with_gradients(void *out_tuple, const void **in)`. -/
def cpu_sph_with_gradients {ε : Type} (lib : Library ε) (T : Precision) (out_tuple : Ptr)
    (inp : Ptr) (w : World ε) : Option (World ε) := do
  -- Parse the inputs
  let xyz ← read_ptr w.mem inp 0
  let l_max := int_to_size_t (← read_int w.mem (← read_ptr w.mem inp 1))
  let normalized ← read_bool w.mem (← read_ptr w.mem inp 2)
  let n_samples := int_to_size_t (← read_int w.mem (← read_ptr w.mem inp 3))
  let xyz_length := size_t_mul n_samples 3
  let sph_len := size_t_mul (size_t_mul (size_t_add l_max 1) (size_t_add l_max 1)) n_samples
  let dsph_len := size_t_mul sph_len 3
  -- The output is stored as a list of pointers since we have multiple outputs
  let sph ← read_ptr w.mem out_tuple 0
  let dsph ← read_ptr w.mem out_tuple 1
  let calculator : SphericalHarmonics := { T := T, l_max := l_max, normalized := normalized }
  let w := w.log (Event.construct calculator)
  call_compute_array_with_gradients lib calculator xyz xyz_length sph sph_len dsph dsph_len w

/-- `template <typename T> void cpu_sph_with_hessians(void *out_tuple, const void **in)`. -/
def cpu_sph_with_hessians {ε : Type} (lib : Library ε) (T : Precision) (out_tuple : Ptr)
    (inp : Ptr) (w : World ε) : Option (World ε) := do
  -- Parse the inputs
  let xyz ← read_ptr w.mem inp 0
  let l_max := int_to_size_t (← read_int w.mem (← read_ptr w.mem inp 1))
  let normalized ← read_bool w.mem (← read_ptr w.mem inp 2)
  let n_samples := int_to_size_t (← read_int w.mem (← read_ptr w.mem inp 3))
  let xyz_length := size_t_mul n_samples 3
  let sph_len := size_t_mul (size_t_mul (size_t_add l_max 1) (size_t_add l_max 1)) n_samples
  let dsph_len := size_t_mul sph_len 3
  let ddsph_len := size_t_mul (size_t_mul sph_len 3) 3
  -- The output is stored as a list of pointers since we have multiple outputs
  let sph ← read_ptr w.mem out_tuple 0
  let dsph ← read_ptr w.mem out_tuple 1
  let ddsph ← read_ptr w.mem out_tuple 2
  let calculator : SphericalHarmonics := { T := T, l_max := l_max, normalized := normalized }
  let w := w.log (Event.construct calculator)
  call_compute_array_with_hessians lib calculator xyz xyz_length sph sph_len dsph dsph_len
    ddsph ddsph_len w

/-! ## Registration -/

/-- The three function templates of the file. -/
inductive Template
  | cpu_sph
  | cpu_sph_with_gradients
  | cpu_sph_with_hessians
  deriving DecidableEq, Repr

/-- A function the file can take the address of: a template instantiated at a
precision, such as `cpu_sph<float>`. -/
structure EntryPoint where
  fn : Template
  T : Precision
  deriving DecidableEq, Repr

/-- Calling an entry point. -/
def EntryPoint.run {ε : Type} (lib : Library ε) (ep : EntryPoint) (out : Ptr) (inp : Ptr)
    (w : World ε) : Option (World ε) :=
  match ep.fn with
  | Template.cpu_sph => Sphericart.cpu_sph lib ep.T out inp w
  | Template.cpu_sph_with_gradients => Sphericart.cpu_sph_with_gradients lib ep.T out inp w
  | Template.cpu_sph_with_hessians => Sphericart.cpu_sph_with_hessians lib ep.T out inp w

/-- The assignment `dict[k] = v` on a `pybind11::dict`, kept as an association
list in insertion order: an existing key is overwritten, a new one is added. -/
def dict_setitem {κ : Type} (dict : List (String × κ)) (k : String) (v : κ) :
    List (String × κ) :=
  match dict with
  | [] => [(k, v)]
  | (k0, v0) :: rest =>
    if k0 = k then (k, v) :: rest else (k0, v0) :: dict_setitem rest k v

/-- The function `pybind11::dict Registrations()`; `EncapsulateFunction` wraps a
function pointer into a capsule and comes from a header outside this file. -/
def Registrations {κ : Type} (EncapsulateFunction : EntryPoint → κ) : List (String × κ) :=
  let dict : List (String × κ) := []
  let dict := dict_setitem dict "cpu_sph_f32" (EncapsulateFunction ⟨Template.cpu_sph, Precision.f32⟩)
  let dict := dict_setitem dict "cpu_sph_f64" (EncapsulateFunction ⟨Template.cpu_sph, Precision.f64⟩)
  let dict := dict_setitem dict "cpu_dsph_f32"
    (EncapsulateFunction ⟨Template.cpu_sph_with_gradients, Precision.f32⟩)
  let dict := dict_setitem dict "cpu_dsph_f64"
    (EncapsulateFunction ⟨Template.cpu_sph_with_gradients, Precision.f64⟩)
  let dict := dict_setitem dict "cpu_ddsph_f32"
    (EncapsulateFunction ⟨Template.cpu_sph_with_hessians, Precision.f32⟩)
  let dict := dict_setitem dict "cpu_ddsph_f64"
    (EncapsulateFunction ⟨Template.cpu_sph_with_hessians, Precision.f64⟩)
  dict

/-! ## Reading the trace -/

/-- The calculator object an event was made on. -/
def Event.calculator : Event → SphericalHarmonics
  | Event.construct c => c
  | Event.compute_array c _ _ _ _ => c
  | Event.compute_array_with_gradients c _ _ _ _ _ _ => c
  | Event.compute_array_with_hessians c _ _ _ _ _ _ _ _ => c

/-- The coordinate-array length passed in a computation call. -/
def Event.xyz_length : Event → Option Nat
  | Event.construct _ => none
  | Event.compute_array _ _ n _ _ => some n
  | Event.compute_array_with_gradients _ _ n _ _ _ _ => some n
  | Event.compute_array_with_hessians _ _ n _ _ _ _ _ _ => some n

/-- The values length passed in a computation call. -/
def Event.sph_len : Event → Option Nat
  | Event.construct _ => none
  | Event.compute_array _ _ _ _ n => some n
  | Event.compute_array_with_gradients _ _ _ _ n _ _ => some n
  | Event.compute_array_with_hessians _ _ _ _ n _ _ _ _ => some n

/-- The gradients length passed in a computation call, when it has one. -/
def Event.dsph_len : Event → Option Nat
  | Event.construct _ => none
  | Event.compute_array _ _ _ _ _ => none
  | Event.compute_array_with_gradients _ _ _ _ _ _ n => some n
  | Event.compute_array_with_hessians _ _ _ _ _ _ n _ _ => some n

/-- The second-derivatives length passed in a computation call, when it has one. -/
def Event.ddsph_len : Event → Option Nat
  | Event.construct _ => none
  | Event.compute_array _ _ _ _ _ => none
  | Event.compute_array_with_gradients _ _ _ _ _ _ _ => none
  | Event.compute_array_with_hessians _ _ _ _ _ _ _ _ n => some n

/-- The last call recorded by a finished invocation: its computation call. -/
def issued {ε : Type} (r : Option (World ε)) : Option Event :=
  r.bind fun w => w.trace.getLast?

/-! ## How a caller lays out a call -/

/-- The four inputs of a call: where each lives and what it holds. -/
structure CallArgs (ε : Type) where
  xyz : Ptr
  l_max_at : Ptr
  normalized_at : Ptr
  n_samples_at : Ptr
  coords : List ε
  l_max : Int
  normalized : Bool
  n_samples : Int

/-- The input list at `inp` holds the four pointers, in the fixed order, and
each points to its value. -/
def InputsAt {ε : Type} (m : Mem ε) (inp : Ptr) (T : Precision) (a : CallArgs ε) : Prop :=
  m inp = some (Obj.ptrs [a.xyz, a.l_max_at, a.normalized_at, a.n_samples_at]) ∧
  m a.xyz = some (Obj.array T a.coords) ∧
  m a.l_max_at = some (Obj.int a.l_max) ∧
  m a.normalized_at = some (Obj.bool a.normalized) ∧
  m a.n_samples_at = some (Obj.int a.n_samples)

/-- The pointers an invocation reads its inputs through: the input list and the
four places it points to. -/
def CallArgs.input_ptrs {ε : Type} (a : CallArgs ε) (inp : Ptr) : List Ptr :=
  [inp, a.xyz, a.l_max_at, a.normalized_at, a.n_samples_at]

/-- The output buffers `outs` of a call of template `fn` with output argument
`out`: `out` itself for the single-output kernel, the pointers listed at `out`
for the others. -/
def OutputsAt {ε : Type} (m : Mem ε) (fn : Template) (out : Ptr) (outs : List Ptr) : Prop :=
  match fn with
  | Template.cpu_sph => outs = [out]
  | Template.cpu_sph_with_gradients => outs.length = 2 ∧ m out = some (Obj.ptrs outs)
  | Template.cpu_sph_with_hessians => outs.length = 3 ∧ m out = some (Obj.ptrs outs)

/-- Value of the local `xyz_length` for a decoded sample count. -/
def xyz_length_of (n_samples : Int) : Nat := size_t_mul (int_to_size_t n_samples) 3

/-- Value of the local `sph_len` for a decoded degree and sample count. -/
def sph_len_of (l_max n_samples : Int) : Nat :=
  size_t_mul (size_t_mul (size_t_add (int_to_size_t l_max) 1) (size_t_add (int_to_size_t l_max) 1))
    (int_to_size_t n_samples)

/-- Value of the local `dsph_len`. -/
def dsph_len_of (l_max n_samples : Int) : Nat := size_t_mul (sph_len_of l_max n_samples) 3

/-- Value of the local `ddsph_len`. -/
def ddsph_len_of (l_max n_samples : Int) : Nat :=
  size_t_mul (size_t_mul (sph_len_of l_max n_samples) 3) 3

/-- The calculator a call constructs. -/
def calculator_of {ε : Type} (T : Precision) (a : CallArgs ε) : SphericalHarmonics :=
  SphericalHarmonics.mk T (int_to_size_t a.l_max) a.normalized

/-! ## A concrete call, for evaluation -/

/-- A library whose methods fill nothing in. -/
def demo_lib : Library Nat where
  compute_array := fun _ _ _ _ => []
  compute_array_with_gradients := fun _ _ _ _ _ => ([], [])
  compute_array_with_hessians := fun _ _ _ _ _ _ => ([], [], [])

/-- The inputs of the concrete call: input list at 1, values at 2 to 5. -/
def demo_args (coords : List Nat) (l_max : Int) (normalized : Bool) (n_samples : Int) :
    CallArgs Nat :=
  CallArgs.mk 2 3 4 5 coords l_max normalized n_samples

/-- A memory holding one call: the input list at 1 and its four values at 2 to
5, output arrays at 7, 8, 9, the output list of the gradients kernel at 10 and
that of the second-derivatives kernel at 6. -/
def demo_mem (T : Precision) (coords : List Nat) (l_max : Int) (normalized : Bool)
    (n_samples : Int) : Mem Nat := fun p =>
  match p with
  | 1 => some (Obj.ptrs [2, 3, 4, 5])
  | 2 => some (Obj.array T coords)
  | 3 => some (Obj.int l_max)
  | 4 => some (Obj.bool normalized)
  | 5 => some (Obj.int n_samples)
  | 6 => some (Obj.ptrs [7, 8, 9])
  | 7 => some (Obj.array T [])
  | 8 => some (Obj.array T [])
  | 9 => some (Obj.array T [])
  | 10 => some (Obj.ptrs [7, 8])
  | _ => none

/-- The world before the concrete call: nothing recorded yet. -/
def demo_world (T : Precision) (coords : List Nat) (l_max : Int) (normalized : Bool)
    (n_samples : Int) : World Nat :=
  World.mk (demo_mem T coords l_max normalized n_samples) []

/-- The world of the concrete call after an earlier invocation of the gradients
kernel on it: the output arrays were rewritten and two calls are on record. -/
def demo_world_after (T : Precision) (coords : List Nat) (l_max : Int) (normalized : Bool)
    (n_samples : Int) : World Nat :=
  (cpu_sph_with_gradients demo_lib T 10 1
    (demo_world T coords l_max normalized n_samples)).getD
    (demo_world T coords l_max normalized n_samples)

/-! ## The documented registration keys -/

/-- Tag of a template in the registration keys, as the keys are documented. -/
def mode_tag : Template → String
  | Template.cpu_sph => "sph"
  | Template.cpu_sph_with_gradients => "dsph"
  | Template.cpu_sph_with_hessians => "ddsph"

/-- Tag of a precision in the registration keys, as the keys are documented. -/
def precision_tag : Precision → String
  | Precision.f32 => "f32"
  | Precision.f64 => "f64"

/-- The documented key of an entry point: `cpu_`, its mode, `_`, its precision. -/
def key_of (ep : EntryPoint) : String :=
  "cpu_" ++ mode_tag ep.fn ++ "_" ++ precision_tag ep.T

/-! ## What each kernel does on a laid-out call -/

theorem cpu_sph_run {ε : Type} (lib : Library ε) (T : Precision) (out inp : Ptr) (w : World ε)
    (a : CallArgs ε) (h : InputsAt w.mem inp T a) :
    cpu_sph lib T out inp w = some (World.mk
      (w.mem.write out (Obj.array T (lib.compute_array (calculator_of T a) a.coords
        (xyz_length_of a.n_samples) (sph_len_of a.l_max a.n_samples))))
      (w.trace ++ [Event.construct (calculator_of T a),
        Event.compute_array (calculator_of T a) a.xyz (xyz_length_of a.n_samples) out
          (sph_len_of a.l_max a.n_samples)])) := by
  obtain ⟨h0, h1, h2, h3, h4⟩ := h
  simp [cpu_sph, read_ptr, read_int, read_bool, read_array, call_compute_array, h0, h1, h2, h3,
    h4, World.log, World.store, xyz_length_of, sph_len_of, calculator_of]

theorem cpu_sph_with_gradients_run {ε : Type} (lib : Library ε) (T : Precision)
    (out inp : Ptr) (w : World ε) (a : CallArgs ε) (sph dsph : Ptr)
    (h : InputsAt w.mem inp T a) (ho : w.mem out = some (Obj.ptrs [sph, dsph])) :
    cpu_sph_with_gradients lib T out inp w = some (World.mk
      ((w.mem.write sph (Obj.array T (lib.compute_array_with_gradients (calculator_of T a)
          a.coords (xyz_length_of a.n_samples) (sph_len_of a.l_max a.n_samples)
          (dsph_len_of a.l_max a.n_samples)).1)).write
        dsph (Obj.array T (lib.compute_array_with_gradients (calculator_of T a)
          a.coords (xyz_length_of a.n_samples) (sph_len_of a.l_max a.n_samples)
          (dsph_len_of a.l_max a.n_samples)).2))
      (w.trace ++ [Event.construct (calculator_of T a),
        Event.compute_array_with_gradients (calculator_of T a) a.xyz
          (xyz_length_of a.n_samples) sph (sph_len_of a.l_max a.n_samples) dsph
          (dsph_len_of a.l_max a.n_samples)])) := by
  obtain ⟨h0, h1, h2, h3, h4⟩ := h
  simp [cpu_sph_with_gradients, read_ptr, read_int, read_bool, read_array,
    call_compute_array_with_gradients, h0, h1, h2, h3, h4, ho, World.log, World.store,
    xyz_length_of, sph_len_of, dsph_len_of, calculator_of]

theorem cpu_sph_with_hessians_run {ε : Type} (lib : Library ε) (T : Precision)
    (out inp : Ptr) (w : World ε) (a : CallArgs ε) (sph dsph ddsph : Ptr)
    (h : InputsAt w.mem inp T a) (ho : w.mem out = some (Obj.ptrs [sph, dsph, ddsph])) :
    cpu_sph_with_hessians lib T out inp w = some (World.mk
      (((w.mem.write sph (Obj.array T (lib.compute_array_with_hessians (calculator_of T a)
          a.coords (xyz_length_of a.n_samples) (sph_len_of a.l_max a.n_samples)
          (dsph_len_of a.l_max a.n_samples) (ddsph_len_of a.l_max a.n_samples)).1)).write
        dsph (Obj.array T (lib.compute_array_with_hessians (calculator_of T a)
          a.coords (xyz_length_of a.n_samples) (sph_len_of a.l_max a.n_samples)
          (dsph_len_of a.l_max a.n_samples) (ddsph_len_of a.l_max a.n_samples)).2.1)).write
        ddsph (Obj.array T (lib.compute_array_with_hessians (calculator_of T a)
          a.coords (xyz_length_of a.n_samples) (sph_len_of a.l_max a.n_samples)
          (dsph_len_of a.l_max a.n_samples) (ddsph_len_of a.l_max a.n_samples)).2.2))
      (w.trace ++ [Event.construct (calculator_of T a),
        Event.compute_array_with_hessians (calculator_of T a) a.xyz
          (xyz_length_of a.n_samples) sph (sph_len_of a.l_max a.n_samples) dsph
          (dsph_len_of a.l_max a.n_samples) ddsph (ddsph_len_of a.l_max a.n_samples)])) := by
  obtain ⟨h0, h1, h2, h3, h4⟩ := h
  simp [cpu_sph_with_hessians, read_ptr, read_int, read_bool, read_array,
    call_compute_array_with_hessians, h0, h1, h2, h3, h4, ho, World.log, World.store,
    xyz_length_of, sph_len_of, dsph_len_of, ddsph_len_of, calculator_of]

/-- Every call on a laid-out memory succeeds, records the construction of the
calculator followed by one computation call, and passes the lengths held by the
locals. -/
theorem run_issues {ε : Type} (lib : Library ε) (ep : EntryPoint) (out inp : Ptr)
    (w : World ε) (a : CallArgs ε) (outs : List Ptr)
    (h : InputsAt w.mem inp ep.T a) (ho : OutputsAt w.mem ep.fn out outs) :
    ∃ w1 e, ep.run lib out inp w = some w1 ∧
      w1.trace = w.trace ++ [Event.construct (calculator_of ep.T a), e] ∧
      issued (ep.run lib out inp w) = some e ∧
      e.calculator = calculator_of ep.T a ∧
      e.xyz_length = some (xyz_length_of a.n_samples) ∧
      e.sph_len = some (sph_len_of a.l_max a.n_samples) ∧
      (ep.fn ≠ Template.cpu_sph → e.dsph_len = some (dsph_len_of a.l_max a.n_samples)) ∧
      (ep.fn = Template.cpu_sph_with_hessians →
        e.ddsph_len = some (ddsph_len_of a.l_max a.n_samples)) := by
  obtain ⟨fn, T⟩ := ep
  cases fn
  · refine ⟨_, _, cpu_sph_run lib T out inp w a h, rfl, ?_, rfl, rfl, rfl, ?_, ?_⟩
    · simp [issued, EntryPoint.run, cpu_sph_run lib T out inp w a h]
    · intro hne; exact absurd rfl hne
    · intro he; cases he
  · obtain ⟨hlen, hm⟩ := ho
    obtain ⟨sph, dsph, rfl⟩ := List.length_eq_two.mp hlen
    refine ⟨_, _, cpu_sph_with_gradients_run lib T out inp w a sph dsph h hm, rfl, ?_, rfl, rfl,
      rfl, ?_, ?_⟩
    · simp [issued, EntryPoint.run, cpu_sph_with_gradients_run lib T out inp w a sph dsph h hm]
    · intro _; rfl
    · intro he; cases he
  · obtain ⟨hlen, hm⟩ := ho
    obtain ⟨sph, dsph, ddsph, rfl⟩ := List.length_eq_three.mp hlen
    refine ⟨_, _, cpu_sph_with_hessians_run lib T out inp w a sph dsph ddsph h hm, rfl, ?_, rfl,
      rfl, rfl, ?_, ?_⟩
    · simp [issued, EntryPoint.run,
        cpu_sph_with_hessians_run lib T out inp w a sph dsph ddsph h hm]
    · intro _; rfl
    · intro _; rfl

/-! ## Arithmetic of the conversions and of the lengths -/

theorem int_to_size_t_natCast (n : Nat) : int_to_size_t (n : Int) = n % 2 ^ 64 := by
  unfold int_to_size_t
  omega

theorem int_to_size_t_cast (v : Int) : (int_to_size_t v : Int) = v % 2 ^ 64 := by
  unfold int_to_size_t
  omega

theorem int_to_size_t_neg (d : Int) (h0 : -(2 ^ 64 : Int) ≤ d) (h1 : d < 0) :
    (int_to_size_t d : Int) = 2 ^ 64 + d := by
  unfold int_to_size_t
  omega

theorem succ_sq_lt (l : Nat) (h : l ≤ 2 ^ 31 - 1) : (l + 1) * (l + 1) < 2 ^ 64 := by
  have h1 : l + 1 ≤ 2 ^ 31 := by omega
  calc (l + 1) * (l + 1) ≤ 2 ^ 31 * 2 ^ 31 := Nat.mul_le_mul h1 h1
    _ < 2 ^ 64 := by norm_num

theorem xyz_length_of_natCast (n : Nat) (hn : n ≤ 2 ^ 31 - 1) :
    xyz_length_of (n : Int) = 3 * n := by
  unfold xyz_length_of size_t_mul
  rw [int_to_size_t_natCast]
  omega

theorem sph_len_of_natCast (l n : Nat) (hl : l ≤ 2 ^ 31 - 1) (hn : n ≤ 2 ^ 31 - 1) :
    sph_len_of (l : Int) (n : Int) = ((l + 1) ^ 2 * n) % 2 ^ 64 := by
  unfold sph_len_of size_t_mul size_t_add
  rw [int_to_size_t_natCast, int_to_size_t_natCast]
  have h1 : l % 2 ^ 64 = l := Nat.mod_eq_of_lt (by omega)
  have h2 : n % 2 ^ 64 = n := Nat.mod_eq_of_lt (by omega)
  have h3 : (l + 1) % 2 ^ 64 = l + 1 := Nat.mod_eq_of_lt (by omega)
  have h4 : (l + 1) * (l + 1) % 2 ^ 64 = (l + 1) * (l + 1) :=
    Nat.mod_eq_of_lt (succ_sq_lt l hl)
  rw [h1, h2, h3, h4, sq]

theorem emod_sq_mul (M l n : Int) :
    ((l % M + 1) % M * ((l % M + 1) % M) % M * (n % M)) % M = ((l + 1) ^ 2 * n) % M := by
  have e1 : (l % M + 1) % M = (l + 1) % M := by
    rw [Int.add_emod, Int.emod_emod, ← Int.add_emod]
  rw [e1, ← Int.mul_emod (l + 1) (l + 1) M, ← Int.mul_emod, sq]

theorem sph_len_of_cast (l n : Int) :
    ((sph_len_of l n : Nat) : Int) = ((l + 1) ^ 2 * n) % 2 ^ 64 := by
  unfold sph_len_of size_t_mul size_t_add
  have h := emod_sq_mul (2 ^ 64) l n
  rw [← h]
  push_cast
  rw [int_to_size_t_cast, int_to_size_t_cast]
  norm_num

theorem dsph_len_of_eq (l n : Int) : dsph_len_of l n = (3 * sph_len_of l n) % 2 ^ 64 := by
  unfold dsph_len_of size_t_mul
  rw [Nat.mul_comm]

theorem ddsph_len_of_eq (l n : Int) : ddsph_len_of l n = (9 * sph_len_of l n) % 2 ^ 64 := by
  unfold ddsph_len_of size_t_mul
  omega

/-! ## The concrete call is laid out -/

theorem demo_inputs (T : Precision) (coords : List Nat) (l_max : Int) (normalized : Bool)
    (n_samples : Int) :
    InputsAt (demo_world T coords l_max normalized n_samples).mem 1 T
      (demo_args coords l_max normalized n_samples) :=
  ⟨rfl, rfl, rfl, rfl, rfl⟩

/-! ## The lengths passed to the calculator -/

/-- C1, as stated, fails: with `l_max = 2 ^ 31 - 1` and `n_samples = 4`, both
decodable, `cpu_sph<float>` passes `sph_len = 0`, not
`(l_max + 1) ^ 2 * n_samples = 2 ^ 64`. -/
theorem sph_len_wraps_at_largest_degree :
    (issued (EntryPoint.run demo_lib ⟨Template.cpu_sph, Precision.f32⟩ 7 1
      (demo_world Precision.f32 (List.replicate 12 0) 2147483647 false 4))).bind Event.sph_len
      = some 0 ∧
    (issued (EntryPoint.run demo_lib ⟨Template.cpu_sph, Precision.f32⟩ 7 1
      (demo_world Precision.f32 (List.replicate 12 0) 2147483647 false 4))).bind Event.sph_len
      ≠ some ((2147483647 + 1) ^ 2 * 4) := by
  decide

/-- C1, amended: for both precisions, each of the three kernels and every
decodable `0 ≤ l_max, n_samples ≤ 2 ^ 31 - 1`, the call succeeds and the values
length passed is `((l_max + 1) ^ 2 * n_samples) mod 2 ^ 64`; it is exactly
`(l_max + 1) ^ 2 * n_samples` whenever that product is below `2 ^ 64`. -/
theorem sph_len_exact_when_it_fits {ε : Type} (lib : Library ε) (ep : EntryPoint)
    (out inp : Ptr) (w : World ε) (a : CallArgs ε) (outs : List Ptr) (l n : Nat)
    (h : InputsAt w.mem inp ep.T a) (ho : OutputsAt w.mem ep.fn out outs)
    (hl : a.l_max = (l : Int)) (hn : a.n_samples = (n : Int))
    (hl31 : l ≤ 2 ^ 31 - 1) (hn31 : n ≤ 2 ^ 31 - 1) :
    ∃ e, issued (ep.run lib out inp w) = some e ∧
      e.sph_len = some (((l + 1) ^ 2 * n) % 2 ^ 64) ∧
      ((l + 1) ^ 2 * n < 2 ^ 64 → e.sph_len = some ((l + 1) ^ 2 * n)) := by
  obtain ⟨_, e, _, _, hi, _, _, hs, _, _⟩ := run_issues lib ep out inp w a outs h ho
  rw [hl, hn, sph_len_of_natCast l n hl31 hn31] at hs
  refine ⟨e, hi, hs, fun hfit => ?_⟩
  rw [hs, Nat.mod_eq_of_lt hfit]

theorem sph_len_exact_when_it_fits_witness :
    ∃ e, issued (EntryPoint.run demo_lib ⟨Template.cpu_sph_with_gradients, Precision.f64⟩ 10 1
        (demo_world Precision.f64 (List.replicate 12 0) 2 true 4)) = some e ∧
      e.sph_len = some (((2 + 1) ^ 2 * 4) % 2 ^ 64) ∧
      ((2 + 1) ^ 2 * 4 < 2 ^ 64 → e.sph_len = some ((2 + 1) ^ 2 * 4)) :=
  sph_len_exact_when_it_fits demo_lib ⟨Template.cpu_sph_with_gradients, Precision.f64⟩ 10 1
    (demo_world Precision.f64 (List.replicate 12 0) 2 true 4)
    (demo_args (List.replicate 12 0) 2 true 4) [7, 8] 2 4
    (demo_inputs Precision.f64 (List.replicate 12 0) 2 true 4) ⟨rfl, rfl⟩ rfl rfl
    (by decide) (by decide)

/-- C2, as stated, fails: with `l_max = 2 ^ 31 - 1` and `n_samples = 2`,
`cpu_sph_with_gradients<float>` passes `sph_len = 2 ^ 63` and
`dsph_len = 2 ^ 63`, which is not `3 * sph_len`. -/
theorem dsph_len_wraps_at_largest_degree :
    issued (EntryPoint.run demo_lib ⟨Template.cpu_sph_with_gradients, Precision.f32⟩ 10 1
      (demo_world Precision.f32 (List.replicate 6 0) 2147483647 false 2))
      = some (Event.compute_array_with_gradients ⟨Precision.f32, 2147483647, false⟩
          2 6 7 (2 ^ 63) 8 (2 ^ 63)) ∧
    (2 ^ 63 : Nat) ≠ 3 * 2 ^ 63 := by
  decide

/-- C2, amended: in `cpu_sph_with_gradients` and `cpu_sph_with_hessians`, for
every decodable `0 ≤ l_max, n_samples ≤ 2 ^ 31 - 1`, the gradients length passed
is `(3 * sph_len) mod 2 ^ 64` for the values length `sph_len` passed in the same
call; it is exactly `3 * sph_len` if and only if `3 * sph_len < 2 ^ 64`, which
holds whenever `3 * (l_max + 1) ^ 2 * n_samples < 2 ^ 64`. -/
theorem dsph_len_three_times_when_it_fits {ε : Type} (lib : Library ε) (ep : EntryPoint)
    (out inp : Ptr) (w : World ε) (a : CallArgs ε) (outs : List Ptr) (l n : Nat)
    (h : InputsAt w.mem inp ep.T a) (ho : OutputsAt w.mem ep.fn out outs)
    (hfn : ep.fn ≠ Template.cpu_sph)
    (hl : a.l_max = (l : Int)) (hn : a.n_samples = (n : Int))
    (hl31 : l ≤ 2 ^ 31 - 1) (hn31 : n ≤ 2 ^ 31 - 1) :
    ∃ e s d, issued (ep.run lib out inp w) = some e ∧
      e.sph_len = some s ∧ e.dsph_len = some d ∧
      d = (3 * s) % 2 ^ 64 ∧
      (d = 3 * s ↔ 3 * s < 2 ^ 64) ∧
      (3 * (l + 1) ^ 2 * n < 2 ^ 64 → d = 3 * s) := by
  obtain ⟨_, e, _, _, hi, _, _, hs, hd, _⟩ := run_issues lib ep out inp w a outs h ho
  have hs2 := sph_len_of_natCast l n hl31 hn31
  rw [← hl, ← hn] at hs2
  refine ⟨e, _, _, hi, hs, hd hfn, dsph_len_of_eq _ _, ?_, ?_⟩
  · rw [dsph_len_of_eq]
    constructor
    · intro heq
      have := Nat.mod_lt (3 * sph_len_of a.l_max a.n_samples) (by norm_num : 2 ^ 64 > 0)
      omega
    · intro hlt
      exact Nat.mod_eq_of_lt hlt
  · intro hfit
    rw [dsph_len_of_eq]
    apply Nat.mod_eq_of_lt
    have hle : sph_len_of a.l_max a.n_samples ≤ (l + 1) ^ 2 * n := by
      rw [hs2]; exact Nat.mod_le _ _
    calc 3 * sph_len_of a.l_max a.n_samples ≤ 3 * ((l + 1) ^ 2 * n) :=
          Nat.mul_le_mul_left 3 hle
      _ = 3 * (l + 1) ^ 2 * n := by ring
      _ < 2 ^ 64 := hfit

theorem dsph_len_three_times_when_it_fits_witness :
    ∃ e s d, issued (EntryPoint.run demo_lib ⟨Template.cpu_sph_with_hessians, Precision.f32⟩ 6 1
        (demo_world Precision.f32 (List.replicate 6 0) 3 false 2)) = some e ∧
      e.sph_len = some s ∧ e.dsph_len = some d ∧
      d = (3 * s) % 2 ^ 64 ∧
      (d = 3 * s ↔ 3 * s < 2 ^ 64) ∧
      (3 * (3 + 1) ^ 2 * 2 < 2 ^ 64 → d = 3 * s) :=
  dsph_len_three_times_when_it_fits demo_lib ⟨Template.cpu_sph_with_hessians, Precision.f32⟩
    6 1 (demo_world Precision.f32 (List.replicate 6 0) 3 false 2)
    (demo_args (List.replicate 6 0) 3 false 2) [7, 8, 9] 3 2
    (demo_inputs Precision.f32 (List.replicate 6 0) 3 false 2) ⟨rfl, rfl⟩ (by decide) rfl rfl
    (by decide) (by decide)

/-- C3, as stated, fails: with `l_max = 2 ^ 31 - 1` and `n_samples = 1`,
`cpu_sph_with_hessians<double>` passes `sph_len = 2 ^ 62` and
`ddsph_len = 2 ^ 62`, which is not `9 * sph_len`. -/
theorem ddsph_len_wraps_at_largest_degree :
    issued (EntryPoint.run demo_lib ⟨Template.cpu_sph_with_hessians, Precision.f64⟩ 6 1
      (demo_world Precision.f64 (List.replicate 3 0) 2147483647 false 1))
      = some (Event.compute_array_with_hessians ⟨Precision.f64, 2147483647, false⟩
          2 3 7 (2 ^ 62) 8 (3 * 2 ^ 62) 9 (2 ^ 62)) ∧
    (2 ^ 62 : Nat) ≠ 9 * 2 ^ 62 := by
  decide

/-- C3, amended: in `cpu_sph_with_hessians`, for every decodable
`0 ≤ l_max, n_samples ≤ 2 ^ 31 - 1`, the second-derivatives length passed is
`(9 * sph_len) mod 2 ^ 64` for the values length `sph_len` passed in the same
call; it is exactly `9 * sph_len` if and only if `9 * sph_len < 2 ^ 64`, which
holds whenever `9 * (l_max + 1) ^ 2 * n_samples < 2 ^ 64`. -/
theorem ddsph_len_nine_times_when_it_fits {ε : Type} (lib : Library ε) (ep : EntryPoint)
    (out inp : Ptr) (w : World ε) (a : CallArgs ε) (outs : List Ptr) (l n : Nat)
    (h : InputsAt w.mem inp ep.T a) (ho : OutputsAt w.mem ep.fn out outs)
    (hfn : ep.fn = Template.cpu_sph_with_hessians)
    (hl : a.l_max = (l : Int)) (hn : a.n_samples = (n : Int))
    (hl31 : l ≤ 2 ^ 31 - 1) (hn31 : n ≤ 2 ^ 31 - 1) :
    ∃ e s dd, issued (ep.run lib out inp w) = some e ∧
      e.sph_len = some s ∧ e.ddsph_len = some dd ∧
      dd = (9 * s) % 2 ^ 64 ∧
      (dd = 9 * s ↔ 9 * s < 2 ^ 64) ∧
      (9 * (l + 1) ^ 2 * n < 2 ^ 64 → dd = 9 * s) := by
  obtain ⟨_, e, _, _, hi, _, _, hs, _, hdd⟩ := run_issues lib ep out inp w a outs h ho
  have hs2 := sph_len_of_natCast l n hl31 hn31
  rw [← hl, ← hn] at hs2
  refine ⟨e, _, _, hi, hs, hdd hfn, ddsph_len_of_eq _ _, ?_, ?_⟩
  · rw [ddsph_len_of_eq]
    constructor
    · intro heq
      have := Nat.mod_lt (9 * sph_len_of a.l_max a.n_samples) (by norm_num : 2 ^ 64 > 0)
      omega
    · intro hlt
      exact Nat.mod_eq_of_lt hlt
  · intro hfit
    rw [ddsph_len_of_eq]
    apply Nat.mod_eq_of_lt
    have hle : sph_len_of a.l_max a.n_samples ≤ (l + 1) ^ 2 * n := by
      rw [hs2]; exact Nat.mod_le _ _
    calc 9 * sph_len_of a.l_max a.n_samples ≤ 9 * ((l + 1) ^ 2 * n) :=
          Nat.mul_le_mul_left 9 hle
      _ = 9 * (l + 1) ^ 2 * n := by ring
      _ < 2 ^ 64 := hfit

theorem ddsph_len_nine_times_when_it_fits_witness :
    ∃ e s dd, issued (EntryPoint.run demo_lib ⟨Template.cpu_sph_with_hessians, Precision.f64⟩
        6 1 (demo_world Precision.f64 (List.replicate 3 0) 1 true 1)) = some e ∧
      e.sph_len = some s ∧ e.ddsph_len = some dd ∧
      dd = (9 * s) % 2 ^ 64 ∧
      (dd = 9 * s ↔ 9 * s < 2 ^ 64) ∧
      (9 * (1 + 1) ^ 2 * 1 < 2 ^ 64 → dd = 9 * s) :=
  ddsph_len_nine_times_when_it_fits demo_lib ⟨Template.cpu_sph_with_hessians, Precision.f64⟩
    6 1 (demo_world Precision.f64 (List.replicate 3 0) 1 true 1)
    (demo_args (List.replicate 3 0) 1 true 1) [7, 8, 9] 1 1
    (demo_inputs Precision.f64 (List.replicate 3 0) 1 true 1) ⟨rfl, rfl⟩ rfl rfl rfl
    (by decide) (by decide)

/-- C4: in each of the three kernels, at either precision, for every decodable
sample count `0 ≤ n_samples ≤ 2 ^ 31 - 1` the call succeeds and the
coordinate-array length passed is exactly `3 * n_samples`, below `2 ^ 64`,
whatever the degree, the normalization flag and the precision. -/
theorem xyz_length_three_per_sample {ε : Type} (lib : Library ε) (ep : EntryPoint)
    (out inp : Ptr) (w : World ε) (a : CallArgs ε) (outs : List Ptr) (n : Nat)
    (h : InputsAt w.mem inp ep.T a) (ho : OutputsAt w.mem ep.fn out outs)
    (hn : a.n_samples = (n : Int)) (hn31 : n ≤ 2 ^ 31 - 1) :
    ∃ e, issued (ep.run lib out inp w) = some e ∧
      e.xyz_length = some (3 * n) ∧ n * 3 < 2 ^ 64 := by
  obtain ⟨_, e, _, _, hi, _, hx, _, _, _⟩ := run_issues lib ep out inp w a outs h ho
  rw [hn, xyz_length_of_natCast n hn31] at hx
  exact ⟨e, hi, hx, by omega⟩

theorem xyz_length_three_per_sample_witness :
    ∃ e, issued (EntryPoint.run demo_lib ⟨Template.cpu_sph, Precision.f32⟩ 7 1
        (demo_world Precision.f32 (List.replicate 15 0) 6 true 5)) = some e ∧
      e.xyz_length = some (3 * 5) ∧ 5 * 3 < 2 ^ 64 :=
  xyz_length_three_per_sample demo_lib ⟨Template.cpu_sph, Precision.f32⟩ 7 1
    (demo_world Precision.f32 (List.replicate 15 0) 6 true 5)
    (demo_args (List.replicate 15 0) 6 true 5) [7] 5
    (demo_inputs Precision.f32 (List.replicate 15 0) 6 true 5) rfl rfl (by decide)

/-- C9: in `cpu_sph_with_hessians`, for decodable `0 ≤ l_max, n_samples ≤ 2 ^ 31 - 1`
with `9 * (l_max + 1) ^ 2 * n_samples < 2 ^ 64`, the call succeeds, no addition
or multiplication of the length computation reaches `2 ^ 64`, and the lengths
passed are `3 * n_samples`, `(l_max + 1) ^ 2 * n_samples`, three times and nine
times the latter; the bound holds for all `l_max < 16384`, `n_samples < 2 ^ 31`. -/
theorem hessians_lengths_without_wrap {ε : Type} (lib : Library ε) (T : Precision)
    (out inp : Ptr) (w : World ε) (a : CallArgs ε) (sph dsph ddsph : Ptr) (l n : Nat)
    (h : InputsAt w.mem inp T a) (ho : w.mem out = some (Obj.ptrs [sph, dsph, ddsph]))
    (hl : a.l_max = (l : Int)) (hn : a.n_samples = (n : Int))
    (hl31 : l ≤ 2 ^ 31 - 1) (hn31 : n ≤ 2 ^ 31 - 1)
    (hfit : 9 * (l + 1) ^ 2 * n < 2 ^ 64) :
    (∃ e, issued (cpu_sph_with_hessians lib T out inp w) = some e ∧
      e.xyz_length = some (3 * n) ∧
      e.sph_len = some ((l + 1) ^ 2 * n) ∧
      e.dsph_len = some (3 * ((l + 1) ^ 2 * n)) ∧
      e.ddsph_len = some (9 * ((l + 1) ^ 2 * n))) ∧
    (n * 3 < 2 ^ 64 ∧ l + 1 < 2 ^ 64 ∧ (l + 1) * (l + 1) < 2 ^ 64 ∧
      (l + 1) * (l + 1) * n < 2 ^ 64 ∧ (l + 1) * (l + 1) * n * 3 < 2 ^ 64 ∧
      (l + 1) * (l + 1) * n * 3 * 3 < 2 ^ 64) ∧
    (∀ l0 n0 : Nat, l0 < 16384 → n0 < 2 ^ 31 → 9 * (l0 + 1) ^ 2 * n0 < 2 ^ 64) := by
  have hsq : (l + 1) * (l + 1) = (l + 1) ^ 2 := (sq (l + 1)).symm
  have hfit1 : (l + 1) ^ 2 * n < 2 ^ 64 := by
    have : (l + 1) ^ 2 * n ≤ 9 * (l + 1) ^ 2 * n := by
      rw [Nat.mul_assoc]; exact Nat.le_mul_of_pos_left _ (by norm_num)
    omega
  have hs : sph_len_of a.l_max a.n_samples = (l + 1) ^ 2 * n := by
    rw [hl, hn, sph_len_of_natCast l n hl31 hn31, Nat.mod_eq_of_lt hfit1]
  have h9 : 9 * ((l + 1) ^ 2 * n) < 2 ^ 64 := by rw [← Nat.mul_assoc]; exact hfit
  obtain ⟨_, e, _, _, hi, _, hx, hsl, hd, hdd⟩ :=
    run_issues lib ⟨Template.cpu_sph_with_hessians, T⟩ out inp w a [sph, dsph, ddsph] h
      ⟨rfl, ho⟩
  refine ⟨⟨e, hi, ?_, ?_, ?_, ?_⟩, ⟨?_, ?_, ?_, ?_, ?_, ?_⟩, ?_⟩
  · rw [hx, hn, xyz_length_of_natCast n hn31]
  · rw [hsl, hs]
  · rw [hd (fun hne => Template.noConfusion hne), dsph_len_of_eq, hs,
      Nat.mod_eq_of_lt (by omega)]
  · rw [hdd rfl, ddsph_len_of_eq, hs, Nat.mod_eq_of_lt h9]
  · omega
  · omega
  · exact succ_sq_lt l hl31
  · rw [hsq]; exact hfit1
  · rw [hsq]; omega
  · rw [hsq]; omega
  · intro l0 n0 hl0 hn0
    have h1 : (l0 + 1) ^ 2 ≤ 16384 ^ 2 := Nat.pow_le_pow_left (by omega) 2
    calc 9 * (l0 + 1) ^ 2 * n0 = 9 * ((l0 + 1) ^ 2 * n0) := Nat.mul_assoc _ _ _
      _ ≤ 9 * (16384 ^ 2 * 2 ^ 31) :=
          Nat.mul_le_mul_left 9 (Nat.mul_le_mul h1 (by omega))
      _ < 2 ^ 64 := by norm_num

theorem hessians_lengths_without_wrap_witness :
    (∃ e, issued (cpu_sph_with_hessians demo_lib Precision.f64 6 1
        (demo_world Precision.f64 (List.replicate 6 0) 16383 false 2)) = some e ∧
      e.xyz_length = some (3 * 2) ∧
      e.sph_len = some ((16383 + 1) ^ 2 * 2) ∧
      e.dsph_len = some (3 * ((16383 + 1) ^ 2 * 2)) ∧
      e.ddsph_len = some (9 * ((16383 + 1) ^ 2 * 2))) ∧
    (2 * 3 < 2 ^ 64 ∧ 16383 + 1 < 2 ^ 64 ∧ (16383 + 1) * (16383 + 1) < 2 ^ 64 ∧
      (16383 + 1) * (16383 + 1) * 2 < 2 ^ 64 ∧ (16383 + 1) * (16383 + 1) * 2 * 3 < 2 ^ 64 ∧
      (16383 + 1) * (16383 + 1) * 2 * 3 * 3 < 2 ^ 64) ∧
    (∀ l0 n0 : Nat, l0 < 16384 → n0 < 2 ^ 31 → 9 * (l0 + 1) ^ 2 * n0 < 2 ^ 64) :=
  hessians_lengths_without_wrap demo_lib Precision.f64 6 1
    (demo_world Precision.f64 (List.replicate 6 0) 16383 false 2)
    (demo_args (List.replicate 6 0) 16383 false 2) 7 8 9 16383 2
    (demo_inputs Precision.f64 (List.replicate 6 0) 16383 false 2) rfl rfl rfl
    (by decide) (by decide) (by decide)

/-- C10: a negative 32-bit degree `d` at input position 1 is not rejected: each
kernel, at either precision, succeeds, constructs the calculator with degree
`2 ^ 64 + d` and passes the values length `((d + 1) ^ 2 * n_samples) mod 2 ^ 64`;
for `d = -1` the degree is `2 ^ 64 - 1` and the values, gradients and
second-derivatives lengths passed are all `0`, for every sample count. -/
theorem negative_degree_converted_modulo {ε : Type} (lib : Library ε) (ep : EntryPoint)
    (out inp : Ptr) (w : World ε) (a : CallArgs ε) (outs : List Ptr)
    (h : InputsAt w.mem inp ep.T a) (ho : OutputsAt w.mem ep.fn out outs)
    (hd0 : -(2 ^ 31 : Int) ≤ a.l_max) (hd1 : a.l_max < 0) :
    ∃ w1 c e, ep.run lib out inp w = some w1 ∧
      w1.trace = w.trace ++ [Event.construct c, e] ∧ e.calculator = c ∧
      (c.l_max : Int) = 2 ^ 64 + a.l_max ∧
      e.sph_len.map (fun s : Nat => (s : Int))
        = some (((a.l_max + 1) ^ 2 * a.n_samples) % 2 ^ 64) ∧
      (a.l_max = -1 → c.l_max = 2 ^ 64 - 1 ∧ e.sph_len = some 0 ∧
        (ep.fn ≠ Template.cpu_sph → e.dsph_len = some 0) ∧
        (ep.fn = Template.cpu_sph_with_hessians → e.ddsph_len = some 0)) := by
  obtain ⟨w1, e, hr, ht, _, hc, _, hs, hd, hdd⟩ := run_issues lib ep out inp w a outs h ho
  have hm1 : int_to_size_t (-1) = 2 ^ 64 - 1 := by decide
  have hz : ∀ k : Int, sph_len_of (-1) k = 0 := by
    intro k
    simp [sph_len_of, size_t_add, size_t_mul, hm1]
  refine ⟨w1, calculator_of ep.T a, e, hr, ht, hc, ?_, ?_, ?_⟩
  · exact int_to_size_t_neg a.l_max (by omega) hd1
  · rw [hs, Option.map_some', sph_len_of_cast]
  · intro hneg
    refine ⟨?_, ?_, ?_, ?_⟩
    · simp [calculator_of, hneg, hm1]
    · rw [hs, hneg, hz]
    · intro hfn
      rw [hd hfn, dsph_len_of_eq, hneg, hz]
      rfl
    · intro hfn
      rw [hdd hfn, ddsph_len_of_eq, hneg, hz]
      rfl

theorem negative_degree_converted_modulo_witness :
    ∃ w1 c e, EntryPoint.run demo_lib ⟨Template.cpu_sph_with_hessians, Precision.f32⟩ 6 1
        (demo_world Precision.f32 (List.replicate 9 0) (-1) false 3) = some w1 ∧
      w1.trace = (demo_world Precision.f32 (List.replicate 9 0) (-1) false 3).trace
        ++ [Event.construct c, e] ∧ e.calculator = c ∧
      (c.l_max : Int) = 2 ^ 64 + (demo_args (List.replicate 9 0) (-1) false 3).l_max ∧
      e.sph_len.map (fun s : Nat => (s : Int))
        = some ((((demo_args (List.replicate 9 0) (-1) false 3).l_max + 1) ^ 2
            * (demo_args (List.replicate 9 0) (-1) false 3).n_samples) % 2 ^ 64) ∧
      ((demo_args (List.replicate 9 0) (-1) false 3).l_max = -1 →
        c.l_max = 2 ^ 64 - 1 ∧ e.sph_len = some 0 ∧
        ((EntryPoint.mk Template.cpu_sph_with_hessians Precision.f32).fn ≠ Template.cpu_sph →
          e.dsph_len = some 0) ∧
        ((EntryPoint.mk Template.cpu_sph_with_hessians Precision.f32).fn
            = Template.cpu_sph_with_hessians → e.ddsph_len = some 0)) :=
  negative_degree_converted_modulo demo_lib ⟨Template.cpu_sph_with_hessians, Precision.f32⟩ 6 1
    (demo_world Precision.f32 (List.replicate 9 0) (-1) false 3)
    (demo_args (List.replicate 9 0) (-1) false 3) [7, 8, 9]
    (demo_inputs Precision.f32 (List.replicate 9 0) (-1) false 3) ⟨rfl, rfl⟩
    (by decide) (by decide)

/-! ## Which calls an invocation makes -/

/-- C6: on a laid-out call every kernel, at either precision, succeeds and adds
exactly two events to the trace: the construction of one calculator from the
degree at input position 1 and the flag at input position 2, then one
computation call on that calculator, of the kernel's own mode, with the output
buffers in the order values, gradients, second derivatives. -/
theorem one_calculator_one_call {ε : Type} (lib : Library ε) (T : Precision)
    (out inp : Ptr) (w : World ε) (a : CallArgs ε) (h : InputsAt w.mem inp T a) :
    (∃ w1 xl sl, cpu_sph lib T out inp w = some w1 ∧
      w1.trace = w.trace ++
        [Event.construct ⟨T, int_to_size_t a.l_max, a.normalized⟩,
         Event.compute_array ⟨T, int_to_size_t a.l_max, a.normalized⟩ a.xyz xl out sl]) ∧
    (∀ sph dsph, w.mem out = some (Obj.ptrs [sph, dsph]) →
      ∃ w1 xl sl dl, cpu_sph_with_gradients lib T out inp w = some w1 ∧
        w1.trace = w.trace ++
          [Event.construct ⟨T, int_to_size_t a.l_max, a.normalized⟩,
           Event.compute_array_with_gradients ⟨T, int_to_size_t a.l_max, a.normalized⟩
             a.xyz xl sph sl dsph dl]) ∧
    (∀ sph dsph ddsph, w.mem out = some (Obj.ptrs [sph, dsph, ddsph]) →
      ∃ w1 xl sl dl ddl, cpu_sph_with_hessians lib T out inp w = some w1 ∧
        w1.trace = w.trace ++
          [Event.construct ⟨T, int_to_size_t a.l_max, a.normalized⟩,
           Event.compute_array_with_hessians ⟨T, int_to_size_t a.l_max, a.normalized⟩
             a.xyz xl sph sl dsph dl ddsph ddl]) := by
  refine ⟨⟨_, _, _, cpu_sph_run lib T out inp w a h, rfl⟩, ?_, ?_⟩
  · intro sph dsph ho
    exact ⟨_, _, _, _, cpu_sph_with_gradients_run lib T out inp w a sph dsph h ho, rfl⟩
  · intro sph dsph ddsph ho
    exact ⟨_, _, _, _, _, cpu_sph_with_hessians_run lib T out inp w a sph dsph ddsph h ho, rfl⟩

theorem one_calculator_one_call_witness :
    ∃ w1 xl sl dl ddl, cpu_sph_with_hessians demo_lib Precision.f32 6 1
        (demo_world Precision.f32 (List.replicate 6 0) 3 true 2) = some w1 ∧
      w1.trace = (demo_world Precision.f32 (List.replicate 6 0) 3 true 2).trace ++
        [Event.construct ⟨Precision.f32,
          int_to_size_t (demo_args (List.replicate 6 0) 3 true 2).l_max,
          (demo_args (List.replicate 6 0) 3 true 2).normalized⟩,
         Event.compute_array_with_hessians ⟨Precision.f32,
          int_to_size_t (demo_args (List.replicate 6 0) 3 true 2).l_max,
          (demo_args (List.replicate 6 0) 3 true 2).normalized⟩
          (demo_args (List.replicate 6 0) 3 true 2).xyz xl 7 sl 8 dl 9 ddl] :=
  (one_calculator_one_call demo_lib Precision.f32 6 1
    (demo_world Precision.f32 (List.replicate 6 0) 3 true 2)
    (demo_args (List.replicate 6 0) 3 true 2)
    (demo_inputs Precision.f32 (List.replicate 6 0) 3 true 2)).2.2 7 8 9 rfl

/-! ## Purity -/

theorem InputsAt_of_frame {ε : Type} (m m1 : Mem ε) (inp : Ptr) (T : Precision)
    (a : CallArgs ε) (outs : List Ptr) (hfr : ∀ p, p ∉ outs → m1 p = m p)
    (hdis : ∀ p ∈ a.input_ptrs inp, p ∉ outs) (h : InputsAt m inp T a) :
    InputsAt m1 inp T a := by
  obtain ⟨h0, h1, h2, h3, h4⟩ := h
  have d : ∀ p, p ∈ a.input_ptrs inp → m1 p = m p := fun p hp => hfr p (hdis p hp)
  refine ⟨?_, ?_, ?_, ?_, ?_⟩
  · rw [d inp (by simp [CallArgs.input_ptrs]), h0]
  · rw [d a.xyz (by simp [CallArgs.input_ptrs]), h1]
  · rw [d a.l_max_at (by simp [CallArgs.input_ptrs]), h2]
  · rw [d a.normalized_at (by simp [CallArgs.input_ptrs]), h3]
  · rw [d a.n_samples_at (by simp [CallArgs.input_ptrs]), h4]

/-- C7: each kernel is a function of its four inputs and of the calculator.
Two invocations of the same entry point with the same arguments, in any two
worlds that hold the same inputs (whatever else happened before), both succeed,
record the same calls with the same arguments and leave equal contents in the
output buffers; an invocation changes memory only at the output buffers of its
mode, so the four inputs, when no output buffer overlaps them, are unchanged. -/
theorem invocation_is_pure {ε : Type} (lib : Library ε) (ep : EntryPoint) (out inp : Ptr)
    (w1 w2 : World ε) (a : CallArgs ε) (outs : List Ptr)
    (h1 : InputsAt w1.mem inp ep.T a) (h2 : InputsAt w2.mem inp ep.T a)
    (ho1 : OutputsAt w1.mem ep.fn out outs) (ho2 : OutputsAt w2.mem ep.fn out outs) :
    ∃ v1 v2 calls, ep.run lib out inp w1 = some v1 ∧ ep.run lib out inp w2 = some v2 ∧
      v1.trace = w1.trace ++ calls ∧ v2.trace = w2.trace ++ calls ∧
      (∀ p ∈ outs, v1.mem p = v2.mem p) ∧
      (∀ p, p ∉ outs → v1.mem p = w1.mem p) ∧
      (∀ p, p ∉ outs → v2.mem p = w2.mem p) ∧
      ((∀ p ∈ a.input_ptrs inp, p ∉ outs) →
        InputsAt v1.mem inp ep.T a ∧ InputsAt v2.mem inp ep.T a) := by
  have key : ∃ v1 v2 calls, ep.run lib out inp w1 = some v1 ∧
      ep.run lib out inp w2 = some v2 ∧
      v1.trace = w1.trace ++ calls ∧ v2.trace = w2.trace ++ calls ∧
      (∀ p ∈ outs, v1.mem p = v2.mem p) ∧
      (∀ p, p ∉ outs → v1.mem p = w1.mem p) ∧
      (∀ p, p ∉ outs → v2.mem p = w2.mem p) := by
    obtain ⟨fn, T⟩ := ep
    cases fn
    · have e1 := cpu_sph_run lib T out inp w1 a h1
      have e2 := cpu_sph_run lib T out inp w2 a h2
      have ho : outs = [out] := ho1
      subst ho
      refine ⟨_, _, _, e1, e2, rfl, rfl, ?_, ?_, ?_⟩
      · intro p hp
        simp only [List.mem_singleton] at hp
        simp [Mem.write, hp]
      · intro p hp
        simp only [List.mem_singleton] at hp
        simp [Mem.write, hp]
      · intro p hp
        simp only [List.mem_singleton] at hp
        simp [Mem.write, hp]
    · obtain ⟨hlen, hm1⟩ := ho1
      obtain ⟨_, hm2⟩ := ho2
      obtain ⟨sph, dsph, rfl⟩ := List.length_eq_two.mp hlen
      have e1 := cpu_sph_with_gradients_run lib T out inp w1 a sph dsph h1 hm1
      have e2 := cpu_sph_with_gradients_run lib T out inp w2 a sph dsph h2 hm2
      refine ⟨_, _, _, e1, e2, rfl, rfl, ?_, ?_, ?_⟩
      · intro p hp
        simp only [List.mem_cons, List.mem_singleton, List.not_mem_nil, or_false] at hp
        rcases hp with rfl | rfl <;> simp [Mem.write]
      · intro p hp
        simp only [List.mem_cons, List.mem_singleton, List.not_mem_nil, or_false,
          not_or] at hp
        simp [Mem.write, hp.1, hp.2]
      · intro p hp
        simp only [List.mem_cons, List.mem_singleton, List.not_mem_nil, or_false,
          not_or] at hp
        simp [Mem.write, hp.1, hp.2]
    · obtain ⟨hlen, hm1⟩ := ho1
      obtain ⟨_, hm2⟩ := ho2
      obtain ⟨sph, dsph, ddsph, rfl⟩ := List.length_eq_three.mp hlen
      have e1 := cpu_sph_with_hessians_run lib T out inp w1 a sph dsph ddsph h1 hm1
      have e2 := cpu_sph_with_hessians_run lib T out inp w2 a sph dsph ddsph h2 hm2
      refine ⟨_, _, _, e1, e2, rfl, rfl, ?_, ?_, ?_⟩
      · intro p hp
        simp only [List.mem_cons, List.mem_singleton, List.not_mem_nil, or_false] at hp
        rcases hp with rfl | rfl | rfl <;> simp [Mem.write]
      · intro p hp
        simp only [List.mem_cons, List.mem_singleton, List.not_mem_nil, or_false,
          not_or] at hp
        simp [Mem.write, hp.1, hp.2.1, hp.2.2]
      · intro p hp
        simp only [List.mem_cons, List.mem_singleton, List.not_mem_nil, or_false,
          not_or] at hp
        simp [Mem.write, hp.1, hp.2.1, hp.2.2]
  obtain ⟨v1, v2, calls, r1, r2, t1, t2, ho, f1, f2⟩ := key
  exact ⟨v1, v2, calls, r1, r2, t1, t2, ho, f1, f2, fun hdis =>
    ⟨InputsAt_of_frame w1.mem v1.mem inp ep.T a outs f1 hdis h1,
     InputsAt_of_frame w2.mem v2.mem inp ep.T a outs f2 hdis h2⟩⟩

theorem demo_inputs_after (T : Precision) (coords : List Nat) (l_max : Int)
    (normalized : Bool) (n_samples : Int) :
    InputsAt (demo_world_after T coords l_max normalized n_samples).mem 1 T
      (demo_args coords l_max normalized n_samples) := by
  cases T <;> exact ⟨rfl, rfl, rfl, rfl, rfl⟩

theorem invocation_is_pure_witness :
    ∃ v1 v2 calls,
      EntryPoint.run demo_lib ⟨Template.cpu_sph_with_hessians, Precision.f64⟩ 6 1
        (demo_world Precision.f64 (List.replicate 6 0) 3 true 2) = some v1 ∧
      EntryPoint.run demo_lib ⟨Template.cpu_sph_with_hessians, Precision.f64⟩ 6 1
        (demo_world_after Precision.f64 (List.replicate 6 0) 3 true 2) = some v2 ∧
      v1.trace = (demo_world Precision.f64 (List.replicate 6 0) 3 true 2).trace ++ calls ∧
      v2.trace = (demo_world_after Precision.f64 (List.replicate 6 0) 3 true 2).trace
        ++ calls ∧
      (∀ p ∈ [7, 8, 9], v1.mem p = v2.mem p) ∧
      (∀ p, p ∉ [7, 8, 9] →
        v1.mem p = (demo_world Precision.f64 (List.replicate 6 0) 3 true 2).mem p) ∧
      (∀ p, p ∉ [7, 8, 9] →
        v2.mem p = (demo_world_after Precision.f64 (List.replicate 6 0) 3 true 2).mem p) ∧
      ((∀ p ∈ (demo_args (List.replicate 6 0) 3 true 2).input_ptrs 1, p ∉ [7, 8, 9]) →
        InputsAt v1.mem 1 Precision.f64 (demo_args (List.replicate 6 0) 3 true 2) ∧
        InputsAt v2.mem 1 Precision.f64 (demo_args (List.replicate 6 0) 3 true 2)) :=
  invocation_is_pure demo_lib ⟨Template.cpu_sph_with_hessians, Precision.f64⟩ 6 1
    (demo_world Precision.f64 (List.replicate 6 0) 3 true 2)
    (demo_world_after Precision.f64 (List.replicate 6 0) 3 true 2)
    (demo_args (List.replicate 6 0) 3 true 2) [7, 8, 9]
    (demo_inputs Precision.f64 (List.replicate 6 0) 3 true 2)
    (demo_inputs_after Precision.f64 (List.replicate 6 0) 3 true 2)
    ⟨rfl, rfl⟩ ⟨rfl, rfl⟩

/-! ## The registration table -/

/-- C5: `Registrations()` holds, whatever the capsule helper, the capsules of
the entry points of the table built with the identity helper; that table has
exactly six entries, under the six documented keys, pairwise distinct; its six
entry points are pairwise distinct and are all the pairs of a template and a
precision; every key is the name of the entry point it maps to. -/
theorem registrations_six_entry_points :
    (∀ (κ : Type) (EncapsulateFunction : EntryPoint → κ),
      Registrations EncapsulateFunction
        = (Registrations fun ep => ep).map fun e => (e.1, EncapsulateFunction e.2)) ∧
    (Registrations fun ep => ep).length = 6 ∧
    (Registrations fun ep => ep).map Prod.fst
      = ["cpu_sph_f32", "cpu_sph_f64", "cpu_dsph_f32", "cpu_dsph_f64", "cpu_ddsph_f32",
         "cpu_ddsph_f64"] ∧
    ((Registrations fun ep => ep).map Prod.fst).Nodup ∧
    ((Registrations fun ep => ep).map Prod.snd).Nodup ∧
    (∀ ep : EntryPoint, ep ∈ (Registrations fun ep => ep).map Prod.snd) ∧
    (∀ e ∈ Registrations fun ep => ep, e.1 = key_of e.2) := by
  refine ⟨fun κ enc => rfl, rfl, rfl, by decide, by decide, ?_, by decide⟩
  rintro ⟨fn, T⟩
  cases fn <;> cases T <;> decide

end Sphericart
